import Mathlib

/-!
Shallow embedding of the goflagconfig repository (`src/config.go`).

The package keeps a registry (`ConfigSet`) of named typed bindings
(`Config`), funnels command-line tokens and config-file lines into a
single `Set(name, text)` entry point, and serializes the registry back
to text.  Go maps are modelled as association lists (their iteration
order is irrelevant because all traversal goes through an explicit
lexicographic sort), pointer-backed storage cells are modelled by the
`Value` field stored inside each binding (each binding owns exactly one
cell), and errors are modelled as `Bool`/`Option` results.  Machine
integers are modelled as `Nat`/`Int` with the explicit bounds used by
`strconv` (a 64-bit platform is assumed, as `int`/`uint` are 64 bits
wide there).
-/

namespace GoFlagConfig

/-! ### Models of the strconv routines used by the typed values -/

/-- Outcome classification of strconv number parsing: Go distinguishes
`ErrSyntax` (result 0) from `ErrRange` (result clamped to the extreme). -/
inductive NumErr where
  | badSyn
  | outOfRange
  deriving DecidableEq, Repr

/-- Model of the strconv helper lower, the bitwise-or-32 byte trick. -/
def goLower (c : Char) : Char :=
  Char.ofNat (c.toNat ||| 32)

/-- Model of the digit classification inside the `ParseUint` loop of strconv:
decimal digits, then letters as digits 10..35. -/
def digitVal (c : Char) : Option Nat :=
  if 48 ≤ c.toNat ∧ c.toNat ≤ 57 then some (c.toNat - 48)
  else if 97 ≤ (goLower c).toNat ∧ (goLower c).toNat ≤ 122 then
    some ((goLower c).toNat - 97 + 10)
  else none

/-- Model of the scanning loop of `underscoreOK` in strconv: `saw` is the category of
the previous character (a caret at the start, a zero for a digit, an
underscore, or an exclamation mark for anything else). -/
def underscoreLoop (hex : Bool) : List Char → Char → Bool
  | [], saw => saw ≠ '_'
  | c :: rest, saw =>
    if (48 ≤ c.toNat ∧ c.toNat ≤ 57) ∨
       (hex ∧ 97 ≤ (goLower c).toNat ∧ (goLower c).toNat ≤ 102) then
      underscoreLoop hex rest '0'
    else if c = '_' then
      if saw ≠ '0' then false else underscoreLoop hex rest '_'
    else if saw = '_' then false
    else underscoreLoop hex rest '!'

/-- Model of `underscoreOK s` from strconv: underscores may only separate
successive digits (a base prefix counting as a digit). -/
def underscoreOK (s : List Char) : Bool :=
  let s1 := match s with
    | c :: r => if c = '-' ∨ c = '+' then r else s
    | [] => s
  match s1 with
  | '0' :: c :: r =>
    if goLower c = 'b' ∨ goLower c = 'o' ∨ goLower c = 'x' then
      underscoreLoop (goLower c = 'x') r '0'
    else underscoreLoop false s1 '^'
  | _ => underscoreLoop false s1 '^'

/-- Model of the digit-accumulation loop of `ParseUint` in strconv: returns the
accumulated value, the error if any (0 on a syntax error, `maxVal` on a range
error, exactly as Go returns), and whether an underscore was consumed. -/
def puDigits (base : Nat) (cutoff maxVal : Nat) :
    List Char → Nat → Bool → Nat × Option NumErr × Bool
  | [], n, u => (n, none, u)
  | c :: cs, n, u =>
    if c = '_' then puDigits base cutoff maxVal cs n true
    else match digitVal c with
      | none => (0, some .badSyn, u)
      | some d =>
        if base ≤ d then (0, some .badSyn, u)
        else if cutoff ≤ n then (maxVal, some .outOfRange, u)
        else
          let n1 := n * base + d
          if maxVal < n1 then (maxVal, some .outOfRange, u)
          else puDigits base cutoff maxVal cs n1 u

/-- Model of `strconv.ParseUint(s, 0, 64)` (the only form this package calls):
base detection from a leading `0`/`0b`/`0o`/`0x`, 64-bit cutoffs, underscore
legality checked at the end; on syntax error the value 0 is returned, on range
error the maximal value, exactly like Go. -/
def parseUint0 (sIn : List Char) : Nat × Option NumErr :=
  match sIn with
  | [] => (0, some .badSyn)
  | _ =>
    let det : Nat × List Char :=
      match sIn with
      | '0' :: c :: d :: rest =>
        if goLower c = 'b' then (2, d :: rest)
        else if goLower c = 'o' then (8, d :: rest)
        else if goLower c = 'x' then (16, d :: rest)
        else (8, c :: d :: rest)
      | '0' :: rest => (8, rest)
      | _ => (10, sIn)
    let base := det.fst
    let s := det.snd
    let maxVal : Nat := 2 ^ 64 - 1
    let cutoff : Nat := maxVal / base + 1
    let r := puDigits base cutoff maxVal s 0 false
    match r.snd.fst with
    | some e => (r.fst, some e)
    | none =>
      if r.snd.snd ∧ ¬ underscoreOK sIn then (0, some .badSyn)
      else (r.fst, none)

/-- Model of `strconv.ParseInt(s, 0, 64)`: strips an optional sign, parses the
magnitude with `parseUint0`, and range-checks against the signed 64-bit
bounds, returning the clamped extreme on overflow like Go does. -/
def parseInt0 (sIn : List Char) : Int × Option NumErr :=
  match sIn with
  | [] => (0, some .badSyn)
  | _ =>
    let sg : Bool × List Char :=
      match sIn with
      | '+' :: r => (false, r)
      | '-' :: r => (true, r)
      | _ => (false, sIn)
    let neg := sg.fst
    let p := parseUint0 sg.snd
    match p.snd with
    | some .badSyn => (0, some .badSyn)
    | other =>
      let un := p.fst
      let cutoff : Nat := 2 ^ 63
      if ¬ neg ∧ cutoff ≤ un then ((2 : Int) ^ 63 - 1, some .outOfRange)
      else if neg ∧ cutoff < un then (-(2 : Int) ^ 63, some .outOfRange)
      else ((if neg then -(un : Int) else (un : Int)), other)

/-- Model of `strconv.ParseBool`: the exact literal set accepted by Go. -/
def parseBool : String → Option Bool
  | "1" | "t" | "T" | "true" | "TRUE" | "True" => some true
  | "0" | "f" | "F" | "false" | "FALSE" | "False" => some false
  | _ => none

/-! ### The typed values (`boolValue`, `intValue`, ..., `stringValue`)

Each Go typed value is a pointer to one storage cell; the cell contents are
the payload of a `VValue`.  The `float64Value` and `durationValue` variants
are not modelled: no settled claim exercises them (their rendering is IEEE-754
shortest-representation formatting, outside a shallow embedding).  Go `int`
and `uint` are taken 64 bits wide (64-bit platform). -/

/-- Contents of one typed storage cell. -/
inductive VValue where
  | vbool (b : Bool)
  | vint (i : Int)
  | vint64 (i : Int)
  | vuint (n : Nat)
  | vuint64 (n : Nat)
  | vstring (s : String)
  deriving DecidableEq, Repr

/-- Model of the typed `Set` methods (`boolValue.Set`, `intValue.Set`, ...):
each parses with the corresponding strconv routine and stores the parsed
value into the cell BEFORE the error is examined, exactly as in the source
(`v, err := strconv.Parse...; *p = ...(v); return err`).  Returns the new
cell contents and whether an error is returned. -/
def valueSet : VValue → String → VValue × Bool
  | .vbool _, s =>
    match parseBool s with
    | some v => (.vbool v, false)
    | none => (.vbool false, true)
  | .vint _, s =>
    let r := parseInt0 s.toList
    (.vint r.fst, r.snd.isSome)
  | .vint64 _, s =>
    let r := parseInt0 s.toList
    (.vint64 r.fst, r.snd.isSome)
  | .vuint _, s =>
    let r := parseUint0 s.toList
    (.vuint r.fst, r.snd.isSome)
  | .vuint64 _, s =>
    let r := parseUint0 s.toList
    (.vuint64 r.fst, r.snd.isSome)
  | .vstring _, s => (.vstring s, false)

/-- Model of the typed `String` methods: `strconv.FormatBool`,
`strconv.Itoa` / `FormatInt(_, 10)` / `FormatUint(_, 10)`, and the identity
for `stringValue`. -/
def valueString : VValue → String
  | .vbool b => if b then "true" else "false"
  | .vint i => toString i
  | .vint64 i => toString i
  | .vuint n => toString n
  | .vuint64 n => toString n
  | .vstring s => s

/-! ### Bindings and the registry -/

/-- Model of `Config`: one named binding.  `Value` holds the current cell
contents (the bound storage cell), `DefValue` the rendering captured at
registration time. -/
structure Config where
  Name : String
  Usage : String
  Value : VValue
  DefValue : String
  deriving DecidableEq, Repr

/-- Model of `ConfigSet`.  The Go maps `formal` and `actual` become an
association list with unique keys and a duplicate-free name list; `actual`
in Go maps each set name to the same `*Config` that `formal` holds, so only
its key set carries information. -/
structure ConfigSet where
  filename : String
  actual : List String
  formal : List (String × Config)
  deriving DecidableEq, Repr

/-- Association-list lookup, modelling the Go map read `f.formal[name]`. -/
def lookupConfig : List (String × Config) → String → Option Config
  | [], _ => none
  | kc :: rest, name => if kc.fst = name then some kc.snd else lookupConfig rest name

/-- Writing through the cell pointer of a binding: replace the stored value of
the binding registered under `name`, everything else untouched. -/
def updateValue (l : List (String × Config)) (name : String) (v : VValue) :
    List (String × Config) :=
  l.map (fun kc => if kc.fst = name then (kc.fst, { kc.snd with Value := v }) else kc)

/-- Model of the Go map-key insertion `f.actual[name] = config` seen as a set
of names. -/
def insertName (l : List String) (name : String) : List String :=
  if name ∈ l then l else l ++ [name]

/-- Insertion into `formal` as done at the end of `ConfigSet.Var` (after the
duplicate check has passed): captures `DefValue` as the rendering of the
initial value. -/
def ConfigSet.varInsert (f : ConfigSet) (v : VValue) (name usage : String) : ConfigSet :=
  { f with formal := f.formal ++ [(name, ⟨name, usage, v, valueString v⟩)] }

/-- Model of `ConfigSet.Var`: panics (modelled as `none`) when `name` is
already registered, otherwise inserts the new binding. -/
def ConfigSet.Var (f : ConfigSet) (v : VValue) (name usage : String) : Option ConfigSet :=
  match lookupConfig f.formal name with
  | some _ => none
  | none => some (f.varInsert v name usage)

/-- Model of `ConfigSet.Set`.  An unregistered name is auto-registered as a
string binding via `f.String(name, value, "")` (whose duplicate check cannot
fire) and success is returned without touching `actual`.  A registered name
delegates to the `Set` method of the typed value — which mutates the cell even when it
fails — and only on success records the name in `actual`.  The `Bool` result
models the returned `error` (`true` = non-nil). -/
def ConfigSet.Set (f : ConfigSet) (name value : String) : ConfigSet × Bool :=
  match lookupConfig f.formal name with
  | none => (f.varInsert (.vstring value) name "", false)
  | some config =>
    let r := valueSet config.Value value
    let f1 : ConfigSet := { f with formal := updateValue f.formal name r.fst }
    if r.snd then (f1, true)
    else ({ f1 with actual := insertName f1.actual name }, false)

/-- Model of `ConfigSet.Lookup`. -/
def ConfigSet.Lookup (f : ConfigSet) (name : String) : Option Config :=
  lookupConfig f.formal name

/-- Model of `ConfigSet.NConfig`: the number of names that have been set. -/
def ConfigSet.NConfig (f : ConfigSet) : Nat := f.actual.length

/-- Model of `NewConfigSet ""` / the zero `ConfigSet`. -/
def emptyCS : ConfigSet := { filename := "", actual := [], formal := [] }

/-! ### The text file codec (`Load` / `Save`) -/

/-- Model of `unicode.IsSpace` (the cutset of `strings.TrimSpace`): the
White_Space code points. -/
def goIsSpace (c : Char) : Bool :=
  let n := c.toNat
  (9 ≤ n ∧ n ≤ 13) ∨ n = 32 ∨ n = 133 ∨ n = 160 ∨ n = 0x1680 ∨
    (0x2000 ≤ n ∧ n ≤ 0x200A) ∨ n = 0x2028 ∨ n = 0x2029 ∨ n = 0x202F ∨
    n = 0x205F ∨ n = 0x3000

/-- Model of `strings.TrimSpace`: drop White_Space characters from both ends. -/
def goTrim (l : List Char) : List Char :=
  ((l.dropWhile goIsSpace).reverse.dropWhile goIsSpace).reverse

/-- Model of `strings.Trim(s, "\x22")`: drop ALL leading and trailing
double-quote characters (a cutset trim, not a single matched pair). -/
def trimQuotes (l : List Char) : List Char :=
  ((l.dropWhile (· = '"')).reverse.dropWhile (· = '"')).reverse

/-- Model of `line[:strings.Index(line, "#")]`: the text before the first
`#`, or the whole line when there is none. -/
def stripComment (l : List Char) : List Char :=
  l.takeWhile (· ≠ '#')

/-- Model of `strings.Split(line, "=")` for the single-character separator:
`n` separators yield `n+1` segments. -/
def splitOnEq : List Char → List (List Char)
  | [] => [[]]
  | c :: rest =>
    if c = '=' then [] :: splitOnEq rest
    else
      match splitOnEq rest with
      | [] => [[c]]
      | h :: t => (c :: h) :: t

/-- Key/value extraction of one `Load` line: comment stripped, split on every
`=`, only an exact two-way split is accepted, both parts trimmed of
whitespace and the value additionally trimmed of double quotes. -/
def parseLineKV (line : String) : Option (String × String) :=
  let r := stripComment line.toList
  match splitOnEq r with
  | [k, v] => some (String.mk (goTrim k), String.mk (trimQuotes (goTrim v)))
  | _ => none

/-- Model of one iteration of the scanner loop in `Load`: a line that yields a
key/value pair is fed to `Set` (whose error is only printed), anything else
is ignored. -/
def processLine (f : ConfigSet) (line : String) : ConfigSet :=
  match parseLineKV line with
  | some kv => (f.Set kv.fst kv.snd).fst
  | none => f

/-- Model of the line loop of `ConfigSet.Load` over the file contents (the
file-opening plumbing, which swallows I/O errors, is outside the model). -/
def loadLines (f : ConfigSet) (lines : List String) : ConfigSet :=
  lines.foldl processLine f

/-- Lexicographic (byte-order) comparison used by `sort.StringSlice`;
code-point order coincides with UTF-8 byte order. -/
def strLe (a b : String) : Bool := ! decide (b < a)

/-- Insertion into a lexicographically sorted name list. -/
def insertSorted (x : String) : List String → List String
  | [] => [x]
  | y :: ys => if strLe x y then x :: y :: ys else y :: insertSorted x ys

/-- Ascending lexicographic sort of the registered names, modelling
`sort.StringSlice.Sort` (keys are unique, so stability is irrelevant). -/
def sortNames (l : List String) : List String := l.foldr insertSorted []

/-- Model of `sortConfigs`: the bindings in lexicographic order by name. -/
def sortConfigs (formal : List (String × Config)) : List Config :=
  (sortNames (formal.map Prod.fst)).filterMap (fun n => lookupConfig formal n)

/-- Model of `ConfigSet.VisitAll` made concrete: the visit order. -/
def ConfigSet.visitAllList (f : ConfigSet) : List Config :=
  sortConfigs f.formal

/-- Model of `ConfigSet.Save` with the file system abstracted to the list of
written lines: `none` when no filename is configured (or creation fails and
nothing observable is written).  The visitor line format is
`name=value # usage`.  Crucially, the method body calls the package-level
`VisitAll`, which traverses the global `Configuration` set `g`, NOT the
receiver `f`; `f` contributes only its `filename`. -/
def saveLines (f g : ConfigSet) : Option (List String) :=
  if f.filename = "" then none
  else
    some (g.visitAllList.map
      (fun c => c.Name ++ "=" ++ valueString c.Value ++ " # " ++ c.Usage))

/-! ### Operation sequences (for the registry invariant) -/

/-- One registry-mutating operation: a `Var` registration or a `Set`. -/
inductive Op where
  | var (v : VValue) (name usage : String)
  | set (name value : String)
  deriving DecidableEq, Repr

/-- Run one operation; `none` models the panic of a duplicate registration
(after which no state exists). -/
def runOp (f : ConfigSet) : Op → Option ConfigSet
  | .var v name usage => f.Var v name usage
  | .set name value => some (f.Set name value).fst

/-- Run a sequence of operations, stopping at a panic. -/
def runOps : ConfigSet → List Op → Option ConfigSet
  | f, [] => some f
  | f, op :: rest =>
    match runOp f op with
    | none => none
    | some f1 => runOps f1 rest

/-- Decidable form of the invariant: every actually-set name is a key of
`formal`. -/
def actualSubFormal (f : ConfigSet) : Bool :=
  f.actual.all (fun n => (lookupConfig f.formal n).isSome)

/-! ### The command-line parser (not among the source files) -/

/-- Strip one or two leading minus signs from a flag token body. -/
def stripDashes : List Char → List Char
  | '-' :: '-' :: r => r
  | '-' :: r => r
  | r => r

/-- Split a flag body on the FIRST `=`: name before it, value (which may
itself contain `=`) after it; `none` when the token has no `=`. -/
def splitFirstEq : List Char → Option (List Char × List Char)
  | [] => none
  | c :: r =>
    if c = '=' then some ([], r)
    else
      match splitFirstEq r with
      | some ab => some (c :: ab.fst, ab.snd)
      | none => none

/-- Does `name` resolve to a boolean binding in the registry? -/
def isBoolBinding (f : ConfigSet) (name : String) : Bool :=
  match lookupConfig f.formal name with
  | some c =>
    match c.Value with
    | .vbool _ => true
    | _ => false
  | none => false

/-- Modelled from the spec: the command-line parser itself is not among the
source files (only its documentation and the spec describe it), so this
follows spec section 4.3 word for word.  Stop at a token `--` (consumed, not
kept), at `-`, or at any token not beginning with `-`, the rest becoming
positional arguments; otherwise strip one or two dashes and split on the
first `=`: with a value, `Set` immediately; without one, a boolean binding
is treated as `=true` and never consumes the next token, while any other
binding (including an unknown name, which `Set` auto-registers) consumes the
next token as its value, and parsing fails (`none`) when no next token
exists. -/
def parseArgs (f : ConfigSet) : List String → Option (ConfigSet × List String)
  | [] => some (f, [])
  | tok :: rest =>
    if tok = "--" then some (f, rest)
    else if tok = "-" then some (f, tok :: rest)
    else if tok.toList.head? ≠ some '-' then some (f, tok :: rest)
    else
      let body := stripDashes tok.toList
      match splitFirstEq body with
      | some nv => parseArgs (f.Set (String.mk nv.fst) (String.mk nv.snd)).fst rest
      | none =>
        let nm := String.mk body
        if isBoolBinding f nm then parseArgs (f.Set nm "true").fst rest
        else
          match rest with
          | [] => none
          | v :: rest2 => parseArgs (f.Set nm v).fst rest2

/-! ### Concrete fixtures used by the closed theorems -/

/-- Fixture: a registered boolean binding currently storing `true`. -/
def csBool1 : ConfigSet :=
  { filename := "", actual := [], formal := [("b", Config.mk "b" "u" (.vbool true) "true")] }

/-- Fixture: a registered boolean binding currently storing `false`. -/
def csBool0 : ConfigSet :=
  { filename := "", actual := [], formal := [("b", Config.mk "b" "u" (.vbool false) "false")] }

/-- Fixture: two registered string bindings `a` and `x`, both storing "0". -/
def csTwoStr : ConfigSet :=
  { filename := "", actual := [],
    formal := [("a", Config.mk "a" "ua" (.vstring "0") "0"),
               ("x", Config.mk "x" "ux" (.vstring "0") "0")] }

/-- Fixture: a `ConfigSet` with a configured filename and one own binding `x`. -/
def csSaveF : ConfigSet :=
  { filename := "f.conf", actual := [], formal := [("x", Config.mk "x" "ux" (.vstring "1") "1")] }

/-- Fixture: a distinct global `Configuration` set holding only the binding `y`. -/
def csSaveG : ConfigSet :=
  { filename := "", actual := [], formal := [("y", Config.mk "y" "uy" (.vstring "2") "2")] }

/-- Fixture: registry for the command-line scenario, built exactly as
`Bool("b", false, _)`, `Int("n", 0, _)`, `String("s", "", _)` build it. -/
def csCmd : ConfigSet :=
  ((emptyCS.varInsert (.vbool false) "b" "ub").varInsert
      (.vint 0) "n" "un").varInsert (.vstring "") "s" "us"

/-! ### Association-list and splitting lemmas -/

theorem lookupConfig_append_some {l l2 : List (String × Config)} {m : String} {c : Config}
    (h : lookupConfig l m = some c) : lookupConfig (l ++ l2) m = some c := by
  induction l with
  | nil => simp [lookupConfig] at h
  | cons kc rest ih =>
    by_cases hk : kc.fst = m
    · simp [lookupConfig, hk] at h ⊢
      exact h
    · simp [lookupConfig, hk] at h ⊢
      exact ih h

theorem isSome_lookupConfig_append {l l2 : List (String × Config)} {m : String}
    (h : (lookupConfig l m).isSome) : (lookupConfig (l ++ l2) m).isSome := by
  rcases Option.isSome_iff_exists.mp h with ⟨c, hc⟩
  rw [lookupConfig_append_some hc]
  rfl

theorem lookupConfig_append_of_none {l : List (String × Config)} {name : String}
    {c : Config} (h : lookupConfig l name = none) :
    lookupConfig (l ++ [(name, c)]) name = some c := by
  induction l with
  | nil => simp [lookupConfig]
  | cons kc rest ih =>
    by_cases hk : kc.fst = name
    · simp [lookupConfig, hk] at h
    · simp [lookupConfig, hk] at h ⊢
      exact ih h

theorem lookupConfig_update_self (l : List (String × Config)) (name : String) (v : VValue) :
    lookupConfig (updateValue l name v) name =
      (lookupConfig l name).map (fun c => { c with Value := v }) := by
  induction l with
  | nil => simp [lookupConfig, updateValue]
  | cons kc rest ih =>
    by_cases hk : kc.fst = name
    · simp [lookupConfig, updateValue, hk]
    · simp [lookupConfig, updateValue, hk]
      exact ih

theorem lookupConfig_update_ne {l : List (String × Config)} {name m : String}
    (v : VValue) (h : m ≠ name) :
    lookupConfig (updateValue l name v) m = lookupConfig l m := by
  induction l with
  | nil => simp [lookupConfig, updateValue]
  | cons kc rest ih =>
    by_cases hk : kc.fst = name
    · simp [lookupConfig, updateValue, hk, Ne.symm h]
      exact ih
    · by_cases hm : kc.fst = m
      · simp [lookupConfig, updateValue, hk, hm, h]
      · simp [lookupConfig, updateValue, hk, hm]
        exact ih

theorem isSome_lookupConfig_update (l : List (String × Config)) (name m : String)
    (v : VValue) :
    (lookupConfig (updateValue l name v) m).isSome = (lookupConfig l m).isSome := by
  by_cases h : m = name
  · subst h
    rw [lookupConfig_update_self]
    cases lookupConfig l m <;> rfl
  · rw [lookupConfig_update_ne v h]

theorem mem_insertName_self (l : List String) (name : String) :
    name ∈ insertName l name := by
  unfold insertName
  split
  · assumption
  · simp

theorem mem_of_mem_insertName {l : List String} {name n : String}
    (h : n ∈ insertName l name) : n ∈ l ∨ n = name := by
  unfold insertName at h
  split at h
  · exact Or.inl h
  · simpa using h

theorem splitOnEq_of_not_mem {l : List Char} (h : '=' ∉ l) : splitOnEq l = [l] := by
  induction l with
  | nil => rfl
  | cons c rest ih =>
    have hc : ¬ c = '=' := fun he => h (he ▸ List.mem_cons_self c rest)
    have hr : '=' ∉ rest := fun hm => h (List.mem_cons_of_mem c hm)
    simp [splitOnEq, hc, ih hr]

theorem splitOnEq_pair {a b : List Char} (ha : '=' ∉ a) (hb : '=' ∉ b) :
    splitOnEq (a ++ '=' :: b) = [a, b] := by
  induction a with
  | nil => simp [splitOnEq, splitOnEq_of_not_mem hb]
  | cons c a2 ih =>
    have hc : ¬ c = '=' := fun he => ha (he ▸ List.mem_cons_self c a2)
    have ha2 : '=' ∉ a2 := fun hm => ha (List.mem_cons_of_mem c hm)
    simp [splitOnEq, hc, ih ha2]

theorem length_splitOnEq (l : List Char) :
    (splitOnEq l).length = l.count '=' + 1 := by
  induction l with
  | nil => rfl
  | cons c rest ih =>
    by_cases hc : c = '='
    · subst hc
      simp [splitOnEq, List.count_cons]
      omega
    · cases hsp : splitOnEq rest with
      | nil => rw [hsp] at ih; simp at ih
      | cons h t =>
        rw [hsp] at ih
        simp [splitOnEq, hc, hsp, List.count_cons]
        simp at ih
        omega

/-! ### Claim C2 -/

/-- Claim C2 counterexample: on the registered boolean binding b currently
storing true, Set "b" "xyz" returns a ParseError, yet the bound storage cell
is overwritten with false — the stored value after the failed call differs
from the stored value before it, refuting the claim that the storage cell is
left unchanged. -/
theorem set_invalid_overwrites_cell_cex :
    (csBool1.Set "b" "xyz").snd = true ∧
    (csBool1.Set "b" "xyz").fst.Lookup "b" =
      some (Config.mk "b" "u" (.vbool false) "true") ∧
    csBool1.Lookup "b" = some (Config.mk "b" "u" (.vbool true) "true") ∧
    VValue.vbool false ≠ VValue.vbool true := by
  decide

/-- Claim C2 (amended): for every registered name and every text the
binding rejects, Set returns a ParseError and leaves the actual set
unchanged, but the bound storage cell is overwritten with the value the
failed parse produced (the zero value of the type on malformed text). -/
theorem set_invalid_keeps_actual (f : ConfigSet) (name text : String) (c : Config)
    (hl : lookupConfig f.formal name = some c)
    (he : (valueSet c.Value text).snd = true) :
    (f.Set name text).snd = true ∧
    (f.Set name text).fst.actual = f.actual ∧
    (f.Set name text).fst.Lookup name =
      some { c with Value := (valueSet c.Value text).fst } := by
  have hres : f.Set name text =
      ({ f with formal := updateValue f.formal name (valueSet c.Value text).fst }, true) := by
    unfold ConfigSet.Set
    rw [hl]
    simp [he]
  rw [hres]
  refine ⟨rfl, rfl, ?_⟩
  show lookupConfig (updateValue f.formal name (valueSet c.Value text).fst) name = _
  rw [lookupConfig_update_self, hl]
  rfl

/-- Claim C2 witness: the amended statement evaluated on the concrete
boolean fixture. -/
theorem set_invalid_keeps_actual_witness :
    (csBool1.Set "b" "xyz").snd = true ∧
    (csBool1.Set "b" "xyz").fst.actual = csBool1.actual ∧
    (csBool1.Set "b" "xyz").fst.Lookup "b" =
      some { Config.mk "b" "u" (.vbool true) "true" with
               Value := (valueSet (.vbool true) "xyz").fst } :=
  set_invalid_keeps_actual csBool1 "b" "xyz" (Config.mk "b" "u" (.vbool true) "true")
    (by decide) (by decide)

/-! ### Claim C5 -/

/-- Claim C5 counterexample: Set on a name not previously registered returns
success, yet the name is not recorded in the actual set afterwards and
NConfig stays 0 — refuting the clause "including when the name was not
previously registered". -/
theorem set_success_not_recorded_cex :
    (emptyCS.Set "x" "v").snd = false ∧
    ¬ "x" ∈ (emptyCS.Set "x" "v").fst.actual ∧
    (emptyCS.Set "x" "v").fst.NConfig = 0 := by
  decide

/-- Claim C5 (amended): whenever Set succeeds on a name registered in
formal, the name is recorded in the actual set afterwards (and hence counted
by NConfig); Set on an unregistered name succeeds but leaves the actual set
unchanged. -/
theorem set_success_records_registered (f : ConfigSet) (name text : String) :
    ((lookupConfig f.formal name).isSome = true →
      (f.Set name text).snd = false → name ∈ (f.Set name text).fst.actual) ∧
    (lookupConfig f.formal name = none →
      (f.Set name text).snd = false ∧ (f.Set name text).fst.actual = f.actual) := by
  constructor
  · intro hs hok
    rcases Option.isSome_iff_exists.mp hs with ⟨c, hc⟩
    unfold ConfigSet.Set at hok ⊢
    rw [hc] at hok ⊢
    by_cases he : (valueSet c.Value text).snd = true
    · simp [he] at hok
    · simp only [Bool.not_eq_true] at he
      simp [he]
      exact mem_insertName_self _ _
  · intro hn
    unfold ConfigSet.Set
    rw [hn]
    exact ⟨rfl, rfl⟩

/-- Claim C5 witness: both branches of the amended statement at concrete
inputs — a registered boolean name that parses, and the empty registry. -/
theorem set_success_records_registered_witness :
    "b" ∈ (csBool0.Set "b" "true").fst.actual ∧
    (emptyCS.Set "x" "v").fst.actual = emptyCS.actual :=
  ⟨(set_success_records_registered csBool0 "b" "true").1 (by decide) (by decide),
   ((set_success_records_registered emptyCS "x" "v").2 (by decide)).2⟩

/-! ### Claim C6 -/

/-- Claim C6: Set on a name not registered in formal returns success for any
text and auto-registers a new string-typed binding retrievable via Lookup,
holding the given text as both its current stored value and its default
value text. -/
theorem set_unregistered_auto_registers (f : ConfigSet) (name text : String)
    (hn : lookupConfig f.formal name = none) :
    (f.Set name text).snd = false ∧
    (f.Set name text).fst.Lookup name = some (Config.mk name "" (.vstring text) text) := by
  unfold ConfigSet.Set
  rw [hn]
  refine ⟨rfl, ?_⟩
  show lookupConfig ((f.varInsert (.vstring text) name "").formal) name = _
  unfold ConfigSet.varInsert
  exact lookupConfig_append_of_none hn

/-- Claim C6 witness: auto-registration of the fresh name z on a registry
that does not contain it. -/
theorem set_unregistered_auto_registers_witness :
    (csBool1.Set "z" "hello").snd = false ∧
    (csBool1.Set "z" "hello").fst.Lookup "z" =
      some (Config.mk "z" "" (.vstring "hello") "hello") :=
  set_unregistered_auto_registers csBool1 "z" "hello" (by decide)

/-! ### Claim C8 -/

/-- Claim C8: registering via Var under a name already present in formal
panics (modelled as none) rather than returning normally, and the existing
bindings are never overwritten; registering under a fresh name never fails,
inserts the binding (with the default text captured as the rendering of the
initial value), and preserves every previously registered binding. -/
theorem var_duplicate_panics (f : ConfigSet) (v : VValue) (name usage : String) :
    ((lookupConfig f.formal name).isSome = true → f.Var v name usage = none) ∧
    (lookupConfig f.formal name = none →
      f.Var v name usage = some (f.varInsert v name usage) ∧
      (f.varInsert v name usage).Lookup name =
        some (Config.mk name usage v (valueString v)) ∧
      ∀ m c, lookupConfig f.formal m = some c →
        lookupConfig (f.varInsert v name usage).formal m = some c) := by
  constructor
  · intro hs
    rcases Option.isSome_iff_exists.mp hs with ⟨c, hc⟩
    unfold ConfigSet.Var
    rw [hc]
  · intro hn
    unfold ConfigSet.Var
    rw [hn]
    refine ⟨rfl, ?_, ?_⟩
    · show lookupConfig ((f.varInsert v name usage).formal) name = _
      unfold ConfigSet.varInsert
      exact lookupConfig_append_of_none hn
    · intro m c hm
      unfold ConfigSet.varInsert
      exact lookupConfig_append_some hm

/-- Claim C8 witness: a duplicate registration of b panics while a fresh
registration of n succeeds, on the concrete boolean fixture. -/
theorem var_duplicate_panics_witness :
    csBool1.Var (.vint 3) "b" "w" = none ∧
    csBool1.Var (.vint 3) "n" "w" = some (csBool1.varInsert (.vint 3) "n" "w") :=
  ⟨(var_duplicate_panics csBool1 (.vint 3) "b" "w").1 (by decide),
   ((var_duplicate_panics csBool1 (.vint 3) "n" "w").2 (by decide)).1⟩

/-! ### Claim C9 -/

theorem actualSubFormal_iff {f : ConfigSet} :
    actualSubFormal f = true ↔ ∀ n ∈ f.actual, (lookupConfig f.formal n).isSome = true := by
  simp [actualSubFormal, List.all_eq_true]

theorem runOp_preserves_inv {f f1 : ConfigSet} {op : Op}
    (hf : actualSubFormal f = true) (h : runOp f op = some f1) :
    actualSubFormal f1 = true := by
  cases op with
  | var v name usage =>
    cases hl : lookupConfig f.formal name with
    | some c => simp [runOp, ConfigSet.Var, hl] at h
    | none =>
      simp only [runOp, ConfigSet.Var, hl, Option.some.injEq] at h
      subst h
      rw [actualSubFormal_iff] at hf ⊢
      intro n hn
      exact isSome_lookupConfig_append (hf n hn)
  | set name value =>
    simp only [runOp, Option.some.injEq] at h
    subst h
    unfold ConfigSet.Set
    cases hl : lookupConfig f.formal name with
    | none =>
      rw [actualSubFormal_iff] at hf ⊢
      intro n hn
      exact isSome_lookupConfig_append (hf n hn)
    | some c =>
      by_cases he : (valueSet c.Value value).snd = true
      · simp only [he, if_true]
        rw [actualSubFormal_iff] at hf ⊢
        intro n hn
        rw [isSome_lookupConfig_update]
        exact hf n hn
      · simp only [Bool.not_eq_true] at he
        simp [he]
        rw [actualSubFormal_iff] at hf
        rw [actualSubFormal_iff]
        intro n hn
        rcases mem_of_mem_insertName hn with hn2 | hn2
        · rw [isSome_lookupConfig_update]
          exact hf n hn2
        · subst hn2
          rw [isSome_lookupConfig_update, hl]
          rfl

theorem runOps_preserves_inv : ∀ (ops : List Op) (f f1 : ConfigSet),
    actualSubFormal f = true → runOps f ops = some f1 → actualSubFormal f1 = true
  | [], _, _, hf, h => by
    simp only [runOps, Option.some.injEq] at h
    exact h ▸ hf
  | op :: rest, f, f1, hf, h => by
    unfold runOps at h
    cases hop : runOp f op with
    | none => rw [hop] at h; exact absurd h (by simp)
    | some f2 =>
      rw [hop] at h
      exact runOps_preserves_inv rest f2 f1 (runOp_preserves_inv hf hop) h

/-- Claim C9: for every sequence of Var and Set operations run from the
empty ConfigSet (panic on duplicate registration halting the run), the set
of names in actual is a subset of the keys of formal in the resulting
state — and, since the invariant is preserved step by step, at all times. -/
theorem ops_actual_subset_formal (ops : List Op) (f1 : ConfigSet)
    (h : runOps emptyCS ops = some f1) : actualSubFormal f1 = true :=
  runOps_preserves_inv ops emptyCS f1 (by decide) h

/-- Claim C9 witness: the invariant evaluated on the state reached by a
concrete register-then-set sequence. -/
theorem ops_actual_subset_formal_witness :
    actualSubFormal
      (ConfigSet.mk "" ["b"] [("b", Config.mk "b" "u" (.vbool true) "false")]) = true :=
  ops_actual_subset_formal [.var (.vbool false) "b" "u", .set "b" "true"]
    (ConfigSet.mk "" ["b"] [("b", Config.mk "b" "u" (.vbool true) "false")]) (by decide)

/-! ### Claim C1 -/

/-- Claim C1 (code bug exhibited): Save on the set csSaveF — filename
configured, own formal map holding exactly the binding x — writes the lines
of the distinct global Configuration set csSaveG instead of one line per
binding of its own formal map: the method body calls the package-level
VisitAll, which traverses the global set, so the written lines are those of
csSaveG (y) and not those of csSaveF (x). -/
theorem save_writes_global_set :
    saveLines csSaveF csSaveG = some ["y=2 # uy"] ∧
    saveLines csSaveF csSaveG ≠ some ["x=1 # ux"] ∧
    csSaveF.visitAllList.map
      (fun c => c.Name ++ "=" ++ valueString c.Value ++ " # " ++ c.Usage) =
      ["x=1 # ux"] := by
  decide

/-! ### Claim C3 -/

/-- Claim C3: parsing the argument list -b, -n=42, -s, hello, --, pos1, pos2
against the registry csCmd (bool b defaulting to false, int n defaulting to
0, string s defaulting to the empty string) sets b to true (the boolean flag
without an equals sign is treated as true and consumes no token), n to 42, s
to hello, and leaves exactly the positionals pos1 and pos2 (the terminator
is consumed and not included).  The parser is the spec-modelled parseArgs,
as the command-line parsing code is not among the source files. -/
theorem parse_cmdline_scenario :
    (parseArgs csCmd ["-b", "-n=42", "-s", "hello", "--", "pos1", "pos2"]).map
      (fun p => (p.fst.Lookup "b", p.fst.Lookup "n", p.fst.Lookup "s", p.snd)) =
    some (some (Config.mk "b" "ub" (.vbool true) "false"),
          some (Config.mk "n" "un" (.vint 42) "0"),
          some (Config.mk "s" "us" (.vstring "hello") ""),
          ["pos1", "pos2"]) := by
  decide

/-! ### Claim C4 -/

/-- Claim C4 counterexample: the line a=b=c is silently ignored by Load —
the code splits on EVERY equals sign and sees three segments — although
splitting on the first equals sign would yield exactly the two segments a
and b=c and hence a state-changing Set call; and on the line whose value is
wrapped in two layers of double quotes, ALL surrounding quote characters are
stripped (the stored value is v), not exactly one layer (which would store
a value still wrapped in one layer of quotes). -/
theorem load_line_cex :
    processLine csTwoStr "a=b=c" = csTwoStr ∧
    (csTwoStr.Set "a" "b=c").fst ≠ csTwoStr ∧
    (processLine csTwoStr "x=\"\"v\"\"").Lookup "x" =
      some (Config.mk "x" "ux" (.vstring "v") "0") ∧
    (processLine csTwoStr "x=\"\"v\"\"").Lookup "x" ≠
      some (Config.mk "x" "ux" (.vstring "\"v\"") "0") := by
  decide

/-- Claim C4 (amended): Load splits the comment-stripped remainder on EVERY
equals sign, so exactly the lines whose remainder contains exactly one
equals sign are processed — the remainder decomposes as key text, the
equals sign, and value text, surrounding whitespace is trimmed from both
parts, every leading and trailing double-quote character is stripped from
the value (not exactly one layer), and Set(key, value) is called; every
line whose remainder does not contain exactly one equals sign is silently
ignored. -/
theorem load_line_amended :
    (∀ (f : ConfigSet) (line : String) (a b : List Char),
      stripComment line.toList = a ++ '=' :: b → '=' ∉ a → '=' ∉ b →
      processLine f line =
        (f.Set (String.mk (goTrim a)) (String.mk (trimQuotes (goTrim b)))).fst) ∧
    (∀ (f : ConfigSet) (line : String),
      (stripComment line.toList).count '=' ≠ 1 → processLine f line = f) := by
  constructor
  · intro f line a b hsc ha hb
    unfold processLine parseLineKV
    simp only [hsc, splitOnEq_pair ha hb]
  · intro f line hc
    unfold processLine parseLineKV
    cases hsp : splitOnEq (stripComment line.toList) with
    | nil => simp only [hsp]
    | cons x t =>
      cases t with
      | nil => simp only [hsp]
      | cons y t2 =>
        cases t2 with
        | nil =>
          exfalso
          have hlen := length_splitOnEq (stripComment line.toList)
          rw [hsp] at hlen
          simp only [List.length_cons, List.length_nil] at hlen
          exact hc (by omega)
        | cons z t3 => simp only [hsp]

/-- Claim C4 witness: both parts of the amended statement at concrete
inputs — the processed line a=5 and the ignored line nokey. -/
theorem load_line_amended_witness :
    processLine csTwoStr "a=5" =
      (csTwoStr.Set (String.mk (goTrim ['a'])) (String.mk (trimQuotes (goTrim ['5'])))).fst ∧
    processLine csTwoStr "nokey" = csTwoStr :=
  ⟨load_line_amended.1 csTwoStr "a=5" ['a'] ['5'] (by decide) (by decide) (by decide),
   load_line_amended.2 csTwoStr "nokey" (by decide)⟩

/-! ### Claim C10 -/

/-- Claim C10 counterexample: loading the two lines b=true and b=zzz is NOT
the same as loading only b=true — the second line fails to parse and is
continued past, but it is not skipped without effect: the boolean binding
ends at false (the failed parse result), so the assignment made by the
earlier successful line does not remain in effect. -/
theorem load_failed_line_cex :
    loadLines csBool0 ["b=true", "b=zzz"] ≠ loadLines csBool0 ["b=true"] ∧
    (loadLines csBool0 ["b=true", "b=zzz"]).Lookup "b" =
      some (Config.mk "b" "u" (.vbool false) "false") ∧
    (loadLines csBool0 ["b=true"]).Lookup "b" =
      some (Config.mk "b" "u" (.vbool true) "false") := by
  decide

/-- Claim C10 (amended): Load never propagates an error — when Set fails on
one line (a line that splits into a key registered with a binding whose
parse rejects the value), that failure is only printed, processing continues
with all subsequent lines, the actual set is unchanged, and every binding
other than the failing key is untouched; the failing key itself, however, is
overwritten with the failed-parse result, so an earlier assignment to that
same binding does not survive. -/
theorem load_failing_line_amended (f : ConfigSet) (line key val : String)
    (c : Config) (rest : List String)
    (hkv : parseLineKV line = some (key, val))
    (hl : lookupConfig f.formal key = some c)
    (he : (valueSet c.Value val).snd = true) :
    loadLines f (line :: rest) =
      loadLines { f with formal := updateValue f.formal key (valueSet c.Value val).fst } rest ∧
    (processLine f line).actual = f.actual ∧
    ∀ m, m ≠ key → lookupConfig (processLine f line).formal m = lookupConfig f.formal m := by
  have hpl : processLine f line =
      { f with formal := updateValue f.formal key (valueSet c.Value val).fst } := by
    unfold processLine
    rw [hkv]
    simp [ConfigSet.Set, hl, he]
  refine ⟨?_, ?_, ?_⟩
  · unfold loadLines
    rw [List.foldl_cons, hpl]
  · rw [hpl]
  · intro m hm
    rw [hpl]
    exact lookupConfig_update_ne _ hm

/-- Claim C10 witness: the amended statement evaluated on the boolean
fixture with the failing line b=zzz, instantiated at the distinct name a. -/
theorem load_failing_line_amended_witness :
    loadLines csBool0 ["b=zzz"] =
      loadLines
        { csBool0 with
            formal := updateValue csBool0.formal "b"
              (valueSet (Config.mk "b" "u" (.vbool false) "false").Value "zzz").fst } [] ∧
    (processLine csBool0 "b=zzz").actual = csBool0.actual ∧
    lookupConfig (processLine csBool0 "b=zzz").formal "a" =
      lookupConfig csBool0.formal "a" := by
  have h := load_failing_line_amended csBool0 "b=zzz" "b" "zzz"
    (Config.mk "b" "u" (.vbool false) "false") [] (by decide) (by decide) (by decide)
  exact ⟨h.1, h.2.1, h.2.2 "a" (by decide)⟩

end GoFlagConfig
